import Mathlib

/-!
Shallow embedding of the similarity scoring engine of
`comparison_engine.py` (CV comparison system).

Conventions of the embedding:
* Python `float` values are modelled as exact rationals (`ℚ`); the claims
  under verification are about exact values (0, 1, cubes, weighted sums),
  not about binary floating-point rounding.
* A Python `set` of canonical terms is modelled as a `List String` in the
  (arbitrary but fixed) iteration order Python would use; all results
  proved here are order-independent.
* The SBERT embedding backend is modelled abstractly: an available model
  is a function `sim : String → String → ℚ` giving the cosine similarity
  of the embeddings of two texts; `SEMANTIC_MODEL` being `None` in Python
  is `Option.none` here.
-/

namespace CvEngine

/-- An available embedding backend, reduced to the cosine similarity it
induces on pairs of texts (`cosine_similarity(encode x, encode y)`). -/
abbrev SimFn := String → String → ℚ

/-- Python's substring test `a in b` on strings. -/
def isSub (a b : String) : Bool := decide (a.toList <:+: b.toList)

/-- Python's `set.add`: append the element unless already present
(the list models a set, so order is immaterial). -/
def addToSet (acc : List String) (x : String) : List String :=
  if acc.contains x then acc else acc ++ [x]

/-- The inner test of the containment tier: some candidate B-term
contains `a` or is contained in it (`term_a in term_b or term_b in
term_a`). -/
def containment_pred (diff_b : List String) (a : String) : Bool :=
  diff_b.any (fun b => isSub a b || isSub b a)

/-- The inner test of the semantic tier: the best cosine similarity of
`a` against the candidate B-terms (`np.argmax` row maximum) exceeds the
threshold. -/
def semantic_pred (sim : SimFn) (threshold : ℚ) (diff_b : List String)
    (a : String) : Bool :=
  match ((diff_b.map (fun b => sim a b)).max?) with
  | some best => decide (best > threshold)
  | Option.none => false

/-- The semantic tier of `find_fuzzy_commons`: nothing when the model is
missing, otherwise the still-unmatched A-terms whose best candidate
passes the threshold. -/
def semantic_tier (model : Option SimFn) (threshold : ℚ)
    (remaining_a diff_b : List String) : List String :=
  match model with
  | Option.none => []
  | some sim => remaining_a.filter (semantic_pred sim threshold diff_b)

/-- `find_fuzzy_commons(set_a, set_b, threshold=0.80)` from
`comparison_engine.py`.  Three tiers: exact intersection, containment
(substring either way, against all not-exactly-matched B terms), and
semantic (best cosine similarity over all not-exactly-matched B terms
must exceed the threshold).  The B side is never consumed by the
containment tier in the source: `matched_indices_a` only records A-side
matches and `diff_b` is reused untouched by the semantic tier. -/
def find_fuzzy_commons (model : Option SimFn) (set_a set_b : List String)
    (threshold : ℚ) : List String :=
  if set_a.isEmpty || set_b.isEmpty then []
  else
    let commons := set_a.filter (fun a => set_b.contains a)
    let diff_a := set_a.filter (fun a => !(commons.contains a))
    let diff_b := set_b.filter (fun b => !(commons.contains b))
    if diff_a.isEmpty || diff_b.isEmpty then commons
    else
      let contained := diff_a.filter (containment_pred diff_b)
      let remaining_a := diff_a.filter (fun a => !(containment_pred diff_b a))
      commons ++ contained ++ semantic_tier model threshold remaining_a diff_b

/-- `SECTION_WEIGHTS` from `comparison_engine.py`, in its (insertion)
iteration order.  Note that `PROJELER` has no entry. -/
def SECTION_WEIGHTS : List (String × ℚ) :=
  [("DENEYİM", 35/100), ("YETENEKLER", 25/100), ("TEKNİK_BECERİLER", 15/100),
   ("EĞİTİM", 10/100), ("ÖZET", 5/100), ("YABANCI_DİL", 3/100),
   ("KURSLAR", 3/100), ("SERTİFİKALAR", 2/100), ("KİŞİSEL_BECERİLER", 1/100),
   ("REFERANSLAR", 1/100)]

/-- `STOPWORDS` from `comparison_engine.py` (a Python set, used only for
membership tests). -/
def STOPWORDS : List String :=
  ["ve", "ile", "için", "bir", "bu", "şu", "o", "de", "da", "ki", "mi", "mı",
   "olarak", "olan", "ilgili", "gibi", "üzere", "üzerinde", "tarafından",
   "birlikte", "yaptım", "ettim", "sağladım", "geliştirdim", "çalıştım",
   "bulundum", "uyguladım", "yönettim", "belirledim", "oluşturdum",
   "güçlendirdim", "hazırladım", "tasarladım", "destek", "görev", "aldım",
   "proje", "ekibi", "deneyim", "yıl", "ay", "kullanımı", "bilgisi",
   "hakkında"]

/-- `LANGUAGE_LEVELS` from `comparison_engine.py` (order matters: the
levels are stripped in list order). -/
def LANGUAGE_LEVELS : List String :=
  ["a1", "a2", "b1", "b2", "c1", "c2",
   "başlangıç", "orta", "ileri", "native", "fluent",
   "beginner", "intermediate", "advanced", "ana dil", "seviye", "level"]

/-- Python's `str.lower()` on one character, for the character repertoire
this engine handles (ASCII plus the Turkish alphabet).  `'İ'` lowers to
the two-codepoint `"i̇"` (dotted i), exactly as CPython does. -/
def pyLowerChar (c : Char) : List Char :=
  if c = 'İ' then ['i', '̇']
  else if c = 'Ç' then ['ç'] else if c = 'Ğ' then ['ğ']
  else if c = 'Ö' then ['ö'] else if c = 'Ş' then ['ş']
  else if c = 'Ü' then ['ü']
  else [c.toLower]

/-- Python's `str.lower()` (restricted to the repertoire above). -/
def pyLower (s : String) : String :=
  String.mk ((s.toList.map pyLowerChar).flatten)

/-- `tr_lower` from `comparison_engine.py`: Turkish-aware lowering
(`İ → i`, `I → ı` first, then ordinary `.lower()`). -/
def tr_lower (text : String) : String :=
  if text = "" then ""
  else pyLower ((text.replace "İ" "i").replace "I" "ı")

/-- Python's regex class `\w` (word character), for the ASCII + Turkish
repertoire: letters, digits and the underscore. -/
def isWordChar (c : Char) : Bool :=
  c.isAlphanum || c = '_' ||
    (['ç', 'ğ', 'ı', 'ö', 'ş', 'ü', 'Ç', 'Ğ', 'İ', 'Ö', 'Ş', 'Ü',
      '̇'].contains c)

/-- Python's regex class `\s` (ASCII whitespace repertoire). -/
def isSpaceChar (c : Char) : Bool :=
  ([' ', '\t', '\n', '\r', '\x0b', '\x0c'].contains c)

/-- Python's `str.strip()`: drop whitespace from both ends. -/
def pyStrip (s : String) : String :=
  String.mk (((s.toList.dropWhile isSpaceChar).reverse.dropWhile
    isSpaceChar).reverse)

/-- `clean_stopwords` from `comparison_engine.py`: lower, replace every
non-word non-space character by a space (`re.sub(r'[^\w\s]', ' ', …)`),
split on whitespace, drop stopwords and one-character words, re-join. -/
def clean_stopwords (text : String) : String :=
  if text = "" then ""
  else
    let text := tr_lower text
    let text := String.mk
      (text.toList.map (fun c => if isWordChar c || isSpaceChar c then c else ' '))
    let words := (text.split (fun c => isSpaceChar c)).filter (fun w => w ≠ "")
    let cleaned_words := words.filter
      (fun w => !(STOPWORDS.contains w) && w.length > 1)
    String.intercalate " " cleaned_words

/-- `clean_term` from `comparison_engine.py`: lower, delete brackets and
quotes, replace every non-word non-space character by a space, for
language fields strip every proficiency-level substring, then strip. -/
def clean_term (text : String) (is_language : Bool) : String :=
  let text := tr_lower text
  let text := String.mk
    (text.toList.filter (fun c => !((['[', ']', '\'', '\"']).contains c)))
  let text := String.mk
    (text.toList.map (fun c => if isWordChar c || isSpaceChar c then c else ' '))
  let text :=
    if is_language then
      LANGUAGE_LEVELS.foldl (fun t lvl => t.replace lvl "") text
    else text
  pyStrip text

/-- A Python value as it reaches `normalize_set` / `get_field_data`:
`None`, a string, a number, a list, or a dict with string keys. -/
inductive RawVal where
  | none
  | str (s : String)
  | num (n : Int)
  | list (xs : List RawVal)
  | dict (kvs : List (String × RawVal))

/-- Python truthiness (`if not data_list: …`) for the values above. -/
def pyFalsy : RawVal → Bool
  | .none => true
  | .str s => s = ""
  | .num n => n = 0
  | .list xs => xs.isEmpty
  | .dict kvs => kvs.isEmpty

/-- Python's `str(value)` (flag `false`) and `repr(value)` (flag `true`,
used on the elements of containers).  Quote-escaping inside nested reprs
is not modelled; no claim depends on it. -/
def pyStrAux : Bool → RawVal → String
  | true, .str s => "\x27" ++ s ++ "\x27"
  | _, .none => "None"
  | false, .str s => s
  | _, .num n => toString n
  | _, .list xs =>
      "[" ++ String.intercalate ", "
        (xs.attach.map (fun x => pyStrAux true x.1)) ++ "]"
  | _, .dict kvs =>
      "\x7b" ++ String.intercalate ", "
        (kvs.attach.map (fun p => "\x27" ++ p.1.1 ++ "\x27: " ++ pyStrAux true p.1.2)) ++
        "\x7d"
termination_by _ v => sizeOf v
decreasing_by
  · have := List.sizeOf_lt_of_mem x.2; simp_wf; omega
  · obtain ⟨⟨k, v⟩, hp⟩ := p
    have := List.sizeOf_lt_of_mem hp
    simp_wf
    simp [Prod.mk.sizeOf_spec] at this
    omega

/-- Python's `str(value)`. -/
def pyStr (v : RawVal) : String := pyStrAux false v

/-- Python's `json.dumps(value, ensure_ascii=False)` (string escaping
inside the dump is not modelled; no claim depends on it). -/
def pyJson : RawVal → String
  | .none => "null"
  | .str s => "\"" ++ s ++ "\""
  | .num n => toString n
  | .list xs =>
      "[" ++ String.intercalate ", "
        (xs.attach.map (fun x => pyJson x.1)) ++ "]"
  | .dict kvs =>
      "\x7b" ++ String.intercalate ", "
        (kvs.attach.map (fun p => "\"" ++ p.1.1 ++ "\": " ++ pyJson p.1.2)) ++
        "\x7d"
termination_by v => sizeOf v
decreasing_by
  · have := List.sizeOf_lt_of_mem x.2; simp_wf; omega
  · obtain ⟨⟨k, v⟩, hp⟩ := p
    have := List.sizeOf_lt_of_mem hp
    simp_wf
    simp [Prod.mk.sizeOf_spec] at this
    omega

/-- The character class `[,\n;\•\t■▪●]` of `normalize_set`'s splitter
regex. -/
def isSplitChar (c : Char) : Bool :=
  ([',', '\n', ';', '•', '\t', '■', '▪', '●'].contains c)

/-- Scanner for `re.split(r'[,\n;\•\t■▪●]+|\s{2,}', text)`: at each
position the first alternative (a greedy run of splitter characters) is
tried first, then the second (a greedy run of at least two whitespace
characters); adjacent delimiter matches yield empty pieces, exactly as
`re.split` does. -/
def pySplitAux (cs : List Char) (cur : List Char) : List String :=
  match cs with
  | [] => [String.mk cur.reverse]
  | c :: rest =>
    if isSplitChar c then
      String.mk cur.reverse :: pySplitAux (rest.dropWhile isSplitChar) []
    else if isSpaceChar c &&
        (match rest with | c2 :: _ => isSpaceChar c2 | [] => false) then
      String.mk cur.reverse :: pySplitAux (rest.dropWhile isSpaceChar) []
    else
      pySplitAux rest (c :: cur)
termination_by cs.length
decreasing_by
  · have := (@List.dropWhile_sublist _ rest isSplitChar).length_le
    simp; omega
  · have := (@List.dropWhile_sublist _ rest isSpaceChar).length_le
    simp; omega
  · simp

/-- `re.split(r'[,\n;\•\t■▪●]+|\s{2,}', text)`. -/
def pySplit (text : String) : List String := pySplitAux text.toList []

/-- Dict lookup `k in item` / `item[k]` on the model of a Python dict. -/
def dictGet (kvs : List (String × RawVal)) (k : String) : Option RawVal :=
  (kvs.find? (fun p => p.1 = k)).map Prod.snd

/-- The key-probing loop of `normalize_set` on a dict item: for each
candidate key try the key itself, then its lower-cased form, taking the
first hit (`break`); returns `""` when nothing is found (or the found
value stringifies to `""`, which triggers the same fallback). -/
def dictKeyText (kvs : List (String × RawVal)) : List String → String
  | [] => ""
  | key :: rest =>
    match dictGet kvs key with
    | some v => pyStr v
    | Option.none =>
      match dictGet kvs (pyLower key) with
      | some v => pyStr v
      | Option.none => dictKeyText kvs rest

/-- Extraction of `text_val` from one raw item inside `normalize_set`:
dicts are probed with the candidate keys (falling back to joining all
values); anything else is `str()`-ed. -/
def itemText : RawVal → String
  | .dict kvs =>
      let possible_keys :=
        ["dil", "name", "yetenek", "Kurum", "school", "title", "company"]
      let text_val := dictKeyText kvs possible_keys
      if text_val = "" then
        String.intercalate " " (kvs.map (fun p => pyStr p.2))
      else text_val
  | v => pyStr v

/-- `normalize_set(data_list, field_type="")` from `comparison_engine.py`:
coerce the raw value to a list of items, extract each item's text, split
it with the splitter regex, clean each piece with `clean_term`, and keep
the non-empty results of length > 1 plus the reserved `"c"` and `"r"`,
collected into a set. -/
def normalize_set (data_list : RawVal) (field_type : String) :
    List String :=
  if pyFalsy data_list then []
  else
    let raw_items : List RawVal :=
      match data_list with
      | .str _ => [data_list]
      | .list xs => xs
      | v => [.str (pyStr v)]
    let is_lang := field_type = "YABANCI_DİL"
    raw_items.foldl (fun acc item =>
      (pySplit (itemText item)).foldl (fun acc2 sub_item =>
        let cleaned := clean_term sub_item is_lang
        if cleaned ≠ "" then
          if cleaned.length > 1 || (["c", "r"].contains cleaned) then
            addToSet acc2 cleaned
          else acc2
        else acc2) acc) []

/-- `calculate_semantic_similarity(text1, text2)` from
`comparison_engine.py`: zero when the model is missing or either raw or
cleaned text is empty; otherwise the cosine similarity of the cleaned
texts, clipped to `≥ 0` and cubed. -/
def calculate_semantic_similarity (model : Option SimFn)
    (text1 text2 : String) : ℚ :=
  match model with
  | Option.none => 0
  | some sim =>
    if text1 = "" ∨ text2 = "" then 0
    else
      let clean1 := clean_stopwords text1
      let clean2 := clean_stopwords text2
      if clean1 = "" ∨ clean2 = "" then 0
      else
        let raw_score := max 0 (sim clean1 clean2)
        raw_score ^ 3

/-- `get_field_data(data, keys)` from `comparison_engine.py`: for each
key try the key, its lower-cased form, and both with underscores turned
into spaces; default to the empty list. -/
def get_field_data (data : List (String × RawVal)) :
    (keys : List String) → RawVal
  | [] => .list []
  | k :: rest =>
    match dictGet data k with
    | some v => v
    | Option.none =>
    match dictGet data (pyLower k) with
    | some v => v
    | Option.none =>
    match dictGet data (k.replace "_" " ") with
    | some v => v
    | Option.none =>
    match dictGet data ((pyLower k).replace "_" " ") with
    | some v => v
    | Option.none => get_field_data data rest

/-- A candidate profile: the model of the Python dict handed to
`compare_cv_data`. -/
abbrev Profile := List (String × RawVal)

/-- The list-kind fields of `compare_cv_data`, in source order. -/
def list_fields : List String :=
  ["YETENEKLER", "TEKNİK_BECERİLER", "YABANCI_DİL",
   "KİŞİSEL_BECERİLER", "KURSLAR", "SERTİFİKALAR", "REFERANSLAR"]

/-- The narrative fields of `compare_cv_data`, in source order. -/
def semantic_fields : List String := ["DENEYİM", "EĞİTİM", "ÖZET", "PROJELER"]

/-- `set_a.union(set_b)` on the list model of Python sets. -/
def setUnion (set_a set_b : List String) : List String :=
  set_a ++ set_b.filter (fun b => !(set_a.contains b))

/-- The per-list-field scoring step of `compare_cv_data`: the
Jaccard-style ratio `len(commons) / len(set_a ∪ set_b)`, or 0 on an
empty union. -/
def list_field_score (model : Option SimFn) (set_a set_b : List String) : ℚ :=
  let commons := find_fuzzy_commons model set_a set_b (4/5)
  let union_len := (setUnion set_a set_b).length
  if union_len > 0 then (commons.length : ℚ) / (union_len : ℚ) else 0

/-- The serialization of a narrative field value in `compare_cv_data`:
`json.dumps(val, ensure_ascii=False)` for lists, `str(val)` otherwise. -/
def narrative_text : RawVal → String
  | .list xs => pyJson (.list xs)
  | v => pyStr v

/-- Round half to even (Python's `round` tie-breaking) on rationals. -/
def roundHalfEven (q : ℚ) : ℤ :=
  if q - ⌊q⌋ < 1/2 then ⌊q⌋
  else if q - ⌊q⌋ > 1/2 then ⌊q⌋ + 1
  else if Even ⌊q⌋ then ⌊q⌋ else ⌊q⌋ + 1

/-- Python's `round(x, 3)` on the rational model of floats. -/
def round3 (q : ℚ) : ℚ := ((roundHalfEven (q * 1000) : ℤ) : ℚ) / 1000

/-- The weighted-total loop of `compare_cv_data`: iterate the weight
table and add `score * weight` for every section present in the computed
per-section map. -/
def weighted_total (section_scores : List (String × ℚ)) : ℚ :=
  SECTION_WEIGHTS.foldl (fun acc sw =>
    match section_scores.find? (fun p => p.1 = sw.1) with
    | some p => acc + p.2 * sw.2
    | Option.none => acc) 0

/-- `compare_cv_data(data_a, data_b)` from `comparison_engine.py`:
score the seven list fields by set overlap, the four narrative fields by
(cubed) semantic similarity, then return the rounded weighted total and
the per-section score map (an association list in insertion order). -/
def compare_cv_data (model : Option SimFn) (data_a data_b : Profile) :
    ℚ × List (String × ℚ) :=
  let listScores := list_fields.map (fun field =>
    let val_a := get_field_data data_a [field]
    let val_b := get_field_data data_b [field]
    let set_a := normalize_set val_a field
    let set_b := normalize_set val_b field
    (field, list_field_score model set_a set_b))
  let semScores := semantic_fields.map (fun field =>
    let val_a := get_field_data data_a [field]
    let val_b := get_field_data data_b [field]
    (field, calculate_semantic_similarity model
      (narrative_text val_a) (narrative_text val_b)))
  let section_scores := listScores ++ semScores
  (round3 (weighted_total section_scores), section_scores)

/-- Python's `'{:.1f}'.format` for the non-negative rationals produced by
the engine (ties of the underlying binary floats are modelled as round
half to even). -/
def fmt1 (q : ℚ) : String :=
  let n := roundHalfEven (q * 10)
  if n < 0 then "-" ++ toString ((-n) / 10) ++ "." ++ toString ((-n) % 10)
  else toString (n / 10) ++ "." ++ toString (n % 10)

/-- Upper-casing of one character (ASCII + Turkish repertoire), as
Python's `str.title()` applies it. -/
def pyUpperChar (c : Char) : Char :=
  if c = 'ç' then 'Ç' else if c = 'ğ' then 'Ğ' else if c = 'ı' then 'I'
  else if c = 'ö' then 'Ö' else if c = 'ş' then 'Ş' else if c = 'ü' then 'Ü'
  else c.toUpper

/-- Single-character lower-casing (ASCII + Turkish repertoire), as
Python's `str.title()` applies it to non-initial letters. -/
def pyLowerCharOne (c : Char) : Char :=
  if c = 'Ç' then 'ç' else if c = 'Ğ' then 'ğ' else if c = 'Ö' then 'ö'
  else if c = 'Ş' then 'ş' else if c = 'Ü' then 'ü' else c.toLower

/-- A cased character for `str.title()` (letters of the repertoire). -/
def isCasedChar (c : Char) : Bool :=
  c.isAlpha ||
    (['ç', 'ğ', 'ı', 'ö', 'ş', 'ü', 'Ç', 'Ğ', 'İ', 'Ö', 'Ş', 'Ü'].contains c)

/-- Python's `str.title()`: upper-case every cased character that follows
an uncased one, lower-case the rest of each word. -/
def pyTitle (s : String) : String :=
  String.mk ((s.toList.foldl (fun (st : List Char × Bool) c =>
    if isCasedChar c then
      ((if st.2 then pyLowerCharOne c else pyUpperChar c) :: st.1, true)
    else (c :: st.1, false)) ([], false)).1.reverse)

/-- The `check_fields` table of `generate_report` (field key, report
title), in source order. -/
def check_fields : List (String × String) :=
  [("YETENEKLER", "ORTAK YETENEKLER"),
   ("TEKNİK_BECERİLER", "ORTAK TEKNİK BECERİLER"),
   ("YABANCI_DİL", "ORTAK DİLLER"),
   ("KİŞİSEL_BECERİLER", "ORTAK KİŞİSEL BECERİLER"),
   ("SERTİFİKALAR", "ORTAK SERTİFİKALAR"),
   ("KURSLAR", "ORTAK KURSLAR")]

/-- `generate_report(data_a, data_b, total_score, section_scores)` from
`comparison_engine.py`: a header with the percentage total, a banded
verdict, the experience-score line, then one common-terms line per check
field whose recomputed commons is non-empty (up to 10 title-cased terms,
with an ellipsis marker beyond that).  The source emits no other lines. -/
def generate_report (model : Option SimFn) (data_a data_b : Profile)
    (total_score : ℚ) (section_scores : List (String × ℚ)) : List String :=
  let report := ["--- Karşılaştırma Raporu (Genel Skor: " ++
    fmt1 (total_score * 100) ++ "%) ---"]
  let report := report ++
    [if total_score > 75/100 then "-> Özet: Adaylar Yüksek Uyumlu."
     else if total_score > 5/10 then "-> Özet: Adaylar Orta Uyumlu."
     else "-> Özet: Adaylar Düşük Uyumlu."]
  let deneyim :=
    ((section_scores.find? (fun p => p.1 = "DENEYİM")).map Prod.snd).getD 0
  let report := report ++ ["-> DENEYİM UYUMU: %" ++ fmt1 (deneyim * 100)]
  report ++ check_fields.filterMap (fun ft =>
    let val_a := get_field_data data_a [ft.1]
    let val_b := get_field_data data_b [ft.1]
    let set_a := normalize_set val_a ft.1
    let set_b := normalize_set val_b ft.1
    let common := find_fuzzy_commons model set_a set_b (4/5)
    if common.isEmpty then Option.none
    else
      let common_list := common.map pyTitle
      let display_str := String.intercalate ", " (common_list.take 10) ++
        (if common_list.length > 10 then "..." else "")
      some ("-> " ++ ft.2 ++ ": " ++ display_str))

/-! ### Definitions written from the spec's words, for refinement
comparisons (never used by the embedding above). -/

/-- Following the words of the spec's tier description for claim C7:
the result of running only the exact and containment tiers. -/
def exact_containment_commons (set_a set_b : List String) : List String :=
  if set_a.isEmpty || set_b.isEmpty then []
  else
    let commons := set_a.filter (fun a => set_b.contains a)
    let diff_a := set_a.filter (fun a => !(commons.contains a))
    let diff_b := set_b.filter (fun b => !(commons.contains b))
    if diff_a.isEmpty || diff_b.isEmpty then commons
    else
      commons ++ diff_a.filter (containment_pred diff_b)

/-- The containment tier as the spec's words for claim C2 describe it:
each A-term takes the *first* qualifying B-term and both sides are
consumed; returns the matched A-terms and the surviving B-terms. -/
def containment_consume : List String → List String →
    (List String × List String)
  | [], bs => ([], bs)
  | a :: as, bs =>
    match bs.find? (fun b => isSub a b || isSub b a) with
    | some b =>
        let r := containment_consume as (bs.erase b)
        (a :: r.1, r.2)
    | Option.none => containment_consume as bs

/-- The tiered matcher as the spec's words for claim C2 describe it:
like `find_fuzzy_commons`, but the containment tier consumes matched
B-terms and the semantic tier only sees the surviving B-terms. -/
def find_common_consuming (model : Option SimFn) (set_a set_b : List String)
    (threshold : ℚ) : List String :=
  if set_a.isEmpty || set_b.isEmpty then []
  else
    let commons := set_a.filter (fun a => set_b.contains a)
    let diff_a := set_a.filter (fun a => !(commons.contains a))
    let diff_b := set_b.filter (fun b => !(commons.contains b))
    if diff_a.isEmpty || diff_b.isEmpty then commons
    else
      let cont := containment_consume diff_a diff_b
      let remaining_a := diff_a.filter (fun a => !(cont.1.contains a))
      commons ++ cont.1 ++ semantic_tier model threshold remaining_a cont.2

/-- Following the spec's aggregation formula for claim C4:
`total = Σ weight[f] * per_field[f]` over the fields present in both the
weight table and the per-field map, rounded to 3 decimals. -/
def spec_weighted_total (section_scores : List (String × ℚ)) : ℚ :=
  round3 (((SECTION_WEIGHTS.filter
      (fun sw => (section_scores.find? (fun p => p.1 = sw.1)).isSome)).map
    (fun sw => sw.2 *
      (((section_scores.find? (fun p => p.1 = sw.1)).map Prod.snd).getD 0))).sum)

/-- Replace the score of one field in a per-section score map (used to
state that a field's score never influences the total). -/
def setScore (ss : List (String × ℚ)) (f : String) (q : ℚ) :
    List (String × ℚ) :=
  ss.map (fun p => if p.1 = f then (p.1, q) else p)

/-! ### Helper lemmas -/

/-- The best-score test of the semantic tier holds iff some candidate
beats the threshold. -/
lemma max?_gt_iff (l : List ℚ) (threshold : ℚ) :
    (match l.max? with
     | some best => decide (best > threshold)
     | Option.none => false) = true ↔ ∃ q ∈ l, threshold < q := by
  cases h : l.max? with
  | none =>
    have hl : l = [] := List.max?_eq_none_iff.mp h
    subst hl; simp
  | some m =>
    have hmem : m ∈ l := List.max?_mem (fun a b => max_choice a b) h
    have hle : ∀ b ∈ l, b ≤ m :=
      (List.max?_le_iff (fun a b c => max_le_iff) h).mp (le_refl m)
    simp only [decide_eq_true_eq]
    constructor
    · intro hm; exact ⟨m, hmem, hm⟩
    · rintro ⟨q, hq, hq2⟩; exact lt_of_lt_of_le hq2 (hle q hq)

/-- Filtering out the members of `l.filter p` from `l` is filtering with
the negated predicate. -/
lemma filter_not_contains_filter (l : List String) (p : String → Bool) :
    l.filter (fun a => !((l.filter p).contains a)) =
      l.filter (fun a => !(p a)) := by
  apply List.filter_congr
  intro x hx
  have h : ((l.filter p).contains x) = p x := by
    by_cases hpx : p x = true
    · simp [hpx, List.mem_filter, hx]
    · simp [hpx, List.mem_filter]
  rw [h]

/-! ### Claim theorems -/

/-- C7: when the embedding model failed to load, no scoring call raises:
`calculate_semantic_similarity` returns 0 for every input, and
`find_fuzzy_commons` skips the semantic tier entirely, returning only the
exact- and containment-tier matches. -/
theorem C7_missing_model_degrades (threshold : ℚ) (set_a set_b : List String)
    (text1 text2 : String) :
    find_fuzzy_commons Option.none set_a set_b threshold =
      exact_containment_commons set_a set_b ∧
    calculate_semantic_similarity Option.none text1 text2 = 0 := by
  constructor
  · simp only [find_fuzzy_commons, exact_containment_commons, semantic_tier,
      List.append_nil]
  · rfl

/-- Membership in the semantic tier. -/
lemma mem_semantic_tier (model : Option SimFn) (threshold : ℚ)
    (remaining_a diff_b : List String) (x : String) :
    x ∈ semantic_tier model threshold remaining_a diff_b ↔
      ∃ sim, model = some sim ∧ x ∈ remaining_a ∧
        semantic_pred sim threshold diff_b x = true := by
  cases model with
  | none => simp [semantic_tier]
  | some sim =>
    simp [semantic_tier, List.mem_filter]

/-- The semantic tier never adds more terms than are left unmatched. -/
lemma semantic_tier_length_le (model : Option SimFn) (threshold : ℚ)
    (remaining_a diff_b : List String) :
    (semantic_tier model threshold remaining_a diff_b).length ≤
      remaining_a.length := by
  cases model with
  | none => simp [semantic_tier]
  | some sim => exact List.length_filter_le _ _

/-- Membership in the exact tier. -/
lemma mem_commons_iff (set_a set_b : List String) (x : String) :
    x ∈ set_a.filter (fun a => set_b.contains a) ↔ x ∈ set_a ∧ x ∈ set_b := by
  simp [List.mem_filter]

/-- Membership in the B-side remainder after the exact tier. -/
lemma mem_diffb_iff (set_a set_b : List String) (y : String) :
    y ∈ set_b.filter (fun b =>
        !((set_a.filter (fun a => set_b.contains a)).contains b)) ↔
      y ∈ set_b ∧ y ∉ set_a := by
  simp [List.mem_filter]
  tauto

/-- Membership in the A-side remainder after the exact tier. -/
lemma mem_diffa_iff (set_a set_b : List String) (y : String) :
    y ∈ set_a.filter (fun a =>
        !((set_a.filter (fun a => set_b.contains a)).contains a)) ↔
      y ∈ set_a ∧ y ∉ set_b := by
  simp [List.mem_filter]
  tauto

/-- The containment test holds iff some exact-tier-surviving B-term is in
substring relation with `a`. -/
lemma containment_pred_iff (diff_b : List String) (a : String) :
    containment_pred diff_b a = true ↔
      ∃ b ∈ diff_b, (isSub a b || isSub b a) = true := by
  simp [containment_pred]

/-- The semantic test holds iff some candidate's similarity beats the
threshold. -/
lemma semantic_pred_iff (sim : SimFn) (threshold : ℚ)
    (diff_b : List String) (a : String) :
    semantic_pred sim threshold diff_b a = true ↔
      ∃ b ∈ diff_b, threshold < sim a b := by
  rw [semantic_pred, max?_gt_iff]
  constructor
  · rintro ⟨q, hq, hq2⟩
    rcases List.mem_map.mp hq with ⟨b, hb, rfl⟩
    exact ⟨b, hb, hq2⟩
  · rintro ⟨b, hb, hb2⟩
    exact ⟨sim a b, List.mem_map.mpr ⟨b, hb, rfl⟩, hb2⟩

/-- Extensional characterization of `find_fuzzy_commons`: a term is
matched iff it belongs to A, B is non-empty, and it is an exact match, a
containment match against some B-term outside A, or a semantic match
against some B-term outside A.  No consumption of B-terms occurs in any
tier. -/
lemma mem_find_fuzzy_commons (model : Option SimFn) (threshold : ℚ)
    (set_a set_b : List String) (x : String) :
    x ∈ find_fuzzy_commons model set_a set_b threshold ↔
      (x ∈ set_a ∧ set_b ≠ [] ∧
        (x ∈ set_b ∨
          (∃ b ∈ set_b, b ∉ set_a ∧ (isSub x b || isSub b x) = true) ∨
          (∃ sim, model = some sim ∧
            ∃ b ∈ set_b, b ∉ set_a ∧ threshold < sim x b))) := by
  simp only [find_fuzzy_commons]
  split
  · rename_i hempty
    rcases (by simpa using hempty : set_a = [] ∨ set_b = []) with h | h <;>
      subst h <;> simp
  · rename_i hempty
    have hbne : set_b ≠ [] := by
      simp only [Bool.or_eq_true, List.isEmpty_iff] at hempty
      tauto
    split
    · rename_i hdempty
      rw [mem_commons_iff]
      simp only [Bool.or_eq_true, List.isEmpty_iff] at hdempty
      have himpa : (set_a.filter (fun a =>
          !((set_a.filter (fun a => set_b.contains a)).contains a))) = [] →
          ∀ y ∈ set_a, y ∈ set_b := by
        intro h y hy
        by_contra hyb
        have hmem : y ∈ set_a.filter (fun a =>
            !((set_a.filter (fun a => set_b.contains a)).contains a)) :=
          (mem_diffa_iff set_a set_b y).mpr ⟨hy, hyb⟩
        rw [h] at hmem
        simp at hmem
      have himpb : (set_b.filter (fun b =>
          !((set_a.filter (fun a => set_b.contains a)).contains b))) = [] →
          ∀ y ∈ set_b, y ∈ set_a := by
        intro h y hy
        by_contra hya
        have hmem : y ∈ set_b.filter (fun b =>
            !((set_a.filter (fun a => set_b.contains a)).contains b)) :=
          (mem_diffb_iff set_a set_b y).mpr ⟨hy, hya⟩
        rw [h] at hmem
        simp at hmem
      constructor
      · rintro ⟨hxa, hxb⟩; exact ⟨hxa, hbne, Or.inl hxb⟩
      · rintro ⟨hxa, -, hcl⟩
        refine ⟨hxa, ?_⟩
        rcases hdempty with h | h
        · exact himpa h x hxa
        · rcases hcl with hxb | ⟨b, hb, hbna, -⟩ | ⟨sim, -, b, hb, hbna, -⟩
          · exact hxb
          · exact absurd (himpb h b hb) hbna
          · exact absurd (himpb h b hb) hbna
    · rename_i hdempty
      rw [List.mem_append, List.mem_append, mem_commons_iff,
        List.mem_filter, mem_semantic_tier]
      constructor
      · rintro ((⟨hxa, hxb⟩ | ⟨hxd, hcont⟩) | ⟨sim, hsim, hxr, hsem⟩)
        · exact ⟨hxa, hbne, Or.inl hxb⟩
        · have hxa := (mem_diffa_iff set_a set_b x).mp hxd
          rcases (containment_pred_iff _ _).mp hcont with ⟨b, hb, hsub⟩
          have hbb := (mem_diffb_iff set_a set_b b).mp hb
          exact ⟨hxa.1, hbne, Or.inr (Or.inl ⟨b, hbb.1, hbb.2, hsub⟩)⟩
        · have hxd := (List.mem_filter.mp hxr).1
          have hxa := (mem_diffa_iff set_a set_b x).mp hxd
          rcases (semantic_pred_iff _ _ _ _).mp hsem with ⟨b, hb, hlt⟩
          have hbb := (mem_diffb_iff set_a set_b b).mp hb
          exact ⟨hxa.1, hbne, Or.inr (Or.inr ⟨sim, hsim, b, hbb.1, hbb.2, hlt⟩)⟩
      · rintro ⟨hxa, -, hcl⟩
        by_cases hxb : x ∈ set_b
        · exact Or.inl (Or.inl ⟨hxa, hxb⟩)
        · have hxd : x ∈ set_a.filter (fun a =>
              !((set_a.filter (fun a => set_b.contains a)).contains a)) :=
            (mem_diffa_iff set_a set_b x).mpr ⟨hxa, hxb⟩
          by_cases hcont : containment_pred (set_b.filter (fun b =>
              !((set_a.filter (fun a => set_b.contains a)).contains b))) x = true
          · exact Or.inl (Or.inr ⟨hxd, hcont⟩)
          · rcases hcl with hxb' | ⟨b, hb, hbna, hsub⟩ | ⟨sim, hsim, b, hb, hbna, hlt⟩
            · exact absurd hxb' hxb
            · exact absurd ((containment_pred_iff _ _).mpr
                ⟨b, (mem_diffb_iff set_a set_b b).mpr ⟨hb, hbna⟩, hsub⟩) hcont
            · refine Or.inr ⟨sim, hsim, List.mem_filter.mpr ⟨hxd, ?_⟩, ?_⟩
              · simpa using hcont
              · exact (semantic_pred_iff _ _ _ _).mpr
                  ⟨b, (mem_diffb_iff set_a set_b b).mpr ⟨hb, hbna⟩, hlt⟩

/-- C1 (amended): for every model, threshold and term sets,
`find_fuzzy_commons(A, B)` is contained in `A` (hence in `A ∩ (A ∪ B)`),
and its cardinality is at most `|A|` (the bound `min(|A|,|B|)` claimed by
the spec fails, see the counterexample). -/
theorem C1_subset_and_card (model : Option SimFn) (threshold : ℚ)
    (set_a set_b : List String) :
    (∀ x ∈ find_fuzzy_commons model set_a set_b threshold,
        x ∈ set_a ∧ x ∈ setUnion set_a set_b) ∧
    (find_fuzzy_commons model set_a set_b threshold).length ≤
      set_a.length := by
  constructor
  · intro x hx
    have hxa : x ∈ set_a := by
      simp only [find_fuzzy_commons] at hx
      split at hx
      · simp at hx
      · split at hx
        · exact (List.mem_filter.mp hx).1
        · rcases List.mem_append.mp hx with hx' | hx'
          · rcases List.mem_append.mp hx' with hx'' | hx''
            · exact (List.mem_filter.mp hx'').1
            · exact (List.mem_filter.mp (List.mem_filter.mp hx'').1).1
          · rcases (mem_semantic_tier _ _ _ _ _).mp hx' with ⟨sim, _, hxr, _⟩
            exact (List.mem_filter.mp (List.mem_filter.mp hxr).1).1
    exact ⟨hxa, List.mem_append.mpr (Or.inl hxa)⟩
  · simp only [find_fuzzy_commons]
    split
    · simp
    · split
      · exact List.length_filter_le _ _
      · rw [List.length_append, List.length_append]
        rw [filter_not_contains_filter]
        have hpart := @List.length_eq_length_filter_add _ set_a
          (fun a => set_b.contains a)
        have hpart2 := @List.length_eq_length_filter_add _
          (set_a.filter (fun a => !(set_b.contains a)))
          (containment_pred (set_b.filter (fun b =>
            !((set_a.filter (fun a => set_b.contains a)).contains b))))
        have hsem := semantic_tier_length_le model threshold
          ((set_a.filter (fun a => !(set_b.contains a))).filter
            (fun a => !(containment_pred (set_b.filter (fun b =>
              !((set_a.filter (fun a => set_b.contains a)).contains b))) a)))
          (set_b.filter (fun b =>
            !((set_a.filter (fun a => set_b.contains a)).contains b)))
        omega

/-- C1 counterexample: with `A = {"ab","abc"}` and `B = {"abcd"}` the
containment tier matches both A-terms against the single B-term, so the
result has 2 elements while `min(|A|,|B|) = 1` — the spec's cardinality
bound is false on the code. -/
theorem C1_counterexample :
    (find_fuzzy_commons Option.none ["ab", "abc"] ["abcd"] (4/5)).length >
      min (["ab", "abc"] : List String).length
        (["abcd"] : List String).length := by
  with_unfolding_all decide

/-- Witness for C1 at a concrete input. -/
theorem C1_subset_and_card_witness :
    ("ab" ∈ (["ab"] : List String) ∧ "ab" ∈ setUnion ["ab"] ["ab"]) ∧
    (find_fuzzy_commons Option.none ["ab"] ["ab"] (4/5)).length ≤
      (["ab"] : List String).length :=
  ⟨(C1_subset_and_card Option.none (4/5) ["ab"] ["ab"]).1 "ab"
      (by with_unfolding_all decide),
    (C1_subset_and_card Option.none (4/5) ["ab"] ["ab"]).2⟩

/-- C2 (amended): no consumption of B-terms occurs.  A term of A is
matched iff it is an exact match, or stands in substring relation to
*some* B-term left by the exact tier (a single B-term may serve as the
containment match of several A-terms), or the semantic tier — whose
candidate set is *all* B-terms left by the exact tier, including
containment-matched ones — finds a similarity above the threshold. -/
theorem C2_no_consumption (model : Option SimFn) (threshold : ℚ)
    (set_a set_b : List String) (x : String) :
    x ∈ find_fuzzy_commons model set_a set_b threshold ↔
      (x ∈ set_a ∧ set_b ≠ [] ∧
        (x ∈ set_b ∨
          (∃ b ∈ set_b, b ∉ set_a ∧ (isSub x b || isSub b x) = true) ∨
          (∃ sim, model = some sim ∧
            ∃ b ∈ set_b, b ∉ set_a ∧ threshold < sim x b))) :=
  mem_find_fuzzy_commons model threshold set_a set_b x

/-- A concrete similarity function for the C2 counterexample. -/
def simC2 : SimFn := fun a b => if a = "xy" ∧ b = "abc" then 9/10 else 0

/-- C2 counterexample: with `A = {"ab","xy"}`, `B = {"abc"}` and a model
scoring `("xy","abc")` at 0.9, the code matches both A-terms — the
B-term `"abc"`, although containment-matched by `"ab"`, still serves as
the semantic candidate for `"xy"` — while the consuming matcher the
claim describes stops after `{"ab"}`. -/
theorem C2_counterexample :
    find_fuzzy_commons (some simC2) ["ab", "xy"] ["abc"] (4/5) =
        ["ab", "xy"] ∧
      find_common_consuming (some simC2) ["ab", "xy"] ["abc"] (4/5) =
        ["ab"] := by
  with_unfolding_all decide

/-- A fold preserves any invariant preserved by its step function. -/
lemma foldl_preserve {α β : Type} (P : β → Prop) (f : β → α → β)
    (h : ∀ acc x, P acc → P (f acc x)) :
    ∀ (l : List α) (acc : β), P acc → P (l.foldl f acc) := by
  intro l
  induction l with
  | nil => intro acc h0; exact h0
  | cons a as ih => intro acc h0; exact ih _ (h acc a h0)

/-- The invariant `normalize_set` maintains on its accumulated set. -/
def goodSet (acc : List String) : Prop :=
  (∀ t ∈ acc, t ≠ "" ∧ (t.length = 1 → t = "c" ∨ t = "r")) ∧ acc.Nodup

/-- `set.add` keeps the accumulator a deduplicated set of good terms. -/
lemma addToSet_good (acc : List String) (x : String) (hP : goodSet acc)
    (hx : x ≠ "" ∧ (x.length = 1 → x = "c" ∨ x = "r")) :
    goodSet (addToSet acc x) := by
  unfold addToSet
  split
  · exact hP
  · rename_i hc
    constructor
    · intro t ht
      rcases List.mem_append.mp ht with ht' | ht'
      · exact hP.1 t ht'
      · rw [List.mem_singleton.mp ht']; exact hx
    · rw [List.nodup_append]
      refine ⟨hP.2, List.nodup_singleton x, ?_⟩
      intro a ha ha'
      rw [List.mem_singleton.mp ha'] at ha
      exact hc (List.elem_iff.mpr ha)

/-- The keep-or-drop step of `normalize_set` preserves the invariant. -/
lemma keep_good (acc : List String) (cleaned : String) (hP : goodSet acc) :
    goodSet (if cleaned ≠ "" then
        if cleaned.length > 1 || (["c", "r"].contains cleaned) then
          addToSet acc cleaned
        else acc
      else acc) := by
  split
  · rename_i hne
    split
    · rename_i hkeep
      apply addToSet_good acc _ hP
      refine ⟨hne, ?_⟩
      intro hlen
      rcases (by simpa using hkeep :
          1 < cleaned.length ∨ cleaned = "c" ∨ cleaned = "r") with h | h
      · exact absurd hlen (by omega)
      · exact h
    · exact hP
  · exact hP

/-- C8: every element of `normalize_set`'s result is a non-empty string;
every element of length 1 is one of the two reserved single-letter
technology terms `"c"` and `"r"`; and the result is a deduplicated
set. -/
theorem C8_normalize_set_invariant (data_list : RawVal) (field_type : String) :
    (∀ t ∈ normalize_set data_list field_type,
        t ≠ "" ∧ (t.length = 1 → t = "c" ∨ t = "r")) ∧
    (normalize_set data_list field_type).Nodup := by
  unfold normalize_set
  split
  · exact ⟨by simp, List.nodup_nil⟩
  · apply foldl_preserve goodSet
    · intro acc item hacc
      apply foldl_preserve goodSet
      · intro acc2 sub hacc2
        exact keep_good acc2 (clean_term sub (field_type = "YABANCI_DİL")) hacc2
      · exact hacc
    · exact ⟨by simp, List.nodup_nil⟩

/-- Witness for C8 at a concrete input. -/
theorem C8_witness :
    "python" ≠ "" ∧ ("python".length = 1 → "python" = "c" ∨ "python" = "r") :=
  (C8_normalize_set_invariant (RawVal.str "Python") "YETENEKLER").1 "python"
    (by with_unfolding_all decide)

/-- C5: for non-empty cleaned text pairs the narrative score equals the
cube of the raw cosine similarity clipped to `≥ 0`; it is monotonically
increasing in the raw cosine similarity, and takes the values 1/8 at
cosine 1/2 and 729/1000 at cosine 9/10 (exactly, hence within 1e-6). -/
theorem C5_cubed_similarity (sim sim2 : SimFn) (text1 text2 : String)
    (h1 : text1 ≠ "") (h2 : text2 ≠ "")
    (hc1 : clean_stopwords text1 ≠ "") (hc2 : clean_stopwords text2 ≠ "") :
    calculate_semantic_similarity (some sim) text1 text2 =
      (max 0 (sim (clean_stopwords text1) (clean_stopwords text2))) ^ 3 ∧
    (sim (clean_stopwords text1) (clean_stopwords text2) ≤
        sim2 (clean_stopwords text1) (clean_stopwords text2) →
      calculate_semantic_similarity (some sim) text1 text2 ≤
        calculate_semantic_similarity (some sim2) text1 text2) ∧
    (sim (clean_stopwords text1) (clean_stopwords text2) = 1/2 →
      calculate_semantic_similarity (some sim) text1 text2 = 1/8) ∧
    (sim (clean_stopwords text1) (clean_stopwords text2) = 9/10 →
      calculate_semantic_similarity (some sim) text1 text2 = 729/1000) := by
  have heq : ∀ s : SimFn, calculate_semantic_similarity (some s) text1 text2 =
      (max 0 (s (clean_stopwords text1) (clean_stopwords text2))) ^ 3 := by
    intro s
    simp only [calculate_semantic_similarity]
    rw [if_neg (by tauto), if_neg (by tauto)]
  refine ⟨heq sim, ?_, ?_, ?_⟩
  · intro hle
    rw [heq sim, heq sim2]
    exact pow_le_pow_left₀ (le_max_left 0 _)
      (max_le_max (le_refl 0) hle) 3
  · intro hval
    rw [heq sim, hval]
    norm_num
  · intro hval
    rw [heq sim, hval]
    rw [max_eq_right (by norm_num)]
    norm_num

/-- Witness for C5 at a concrete input. -/
theorem C5_cubed_similarity_witness :
    calculate_semantic_similarity (some (fun _ _ => (1:ℚ)/2))
        "python" "java" = 1/8 :=
  (C5_cubed_similarity (fun _ _ => (1:ℚ)/2) (fun _ _ => (1:ℚ)/2)
      "python" "java" (by decide) (by decide)
      (by with_unfolding_all decide) (by with_unfolding_all decide)).2.2.1 rfl

/-- The accumulation loop of `compare_cv_data` computes the sum, over
the weight-table entries found in the score map, of `weight * score`. -/
lemma weighted_foldl_eq (ws ss : List (String × ℚ)) (init : ℚ) :
    ws.foldl (fun acc sw =>
      match ss.find? (fun p => p.1 = sw.1) with
      | some p => acc + p.2 * sw.2
      | Option.none => acc) init =
    init + ((ws.filter
        (fun sw => (ss.find? (fun p => p.1 = sw.1)).isSome)).map
      (fun sw => sw.2 *
        (((ss.find? (fun p => p.1 = sw.1)).map Prod.snd).getD 0))).sum := by
  induction ws generalizing init with
  | nil => simp
  | cons w ws ih =>
    simp only [List.foldl_cons]
    cases hfind : ss.find? (fun p => p.1 = w.1) with
    | none =>
      rw [ih]
      simp [List.filter_cons, hfind]
    | some p =>
      rw [ih]
      simp [List.filter_cons, hfind]
      ring

/-- Bounds for the accumulation loop: with non-negative weights and
scores in `[0,1]`, the total stays between the initial value and the
initial value plus the sum of the weights. -/
lemma weighted_foldl_bounds (ws ss : List (String × ℚ))
    (hw : ∀ w ∈ ws, 0 ≤ w.2)
    (hs : ∀ p ∈ ss, 0 ≤ p.2 ∧ p.2 ≤ 1) :
    ∀ init : ℚ,
      init ≤ ws.foldl (fun acc sw =>
        match ss.find? (fun p => p.1 = sw.1) with
        | some p => acc + p.2 * sw.2
        | Option.none => acc) init ∧
      ws.foldl (fun acc sw =>
        match ss.find? (fun p => p.1 = sw.1) with
        | some p => acc + p.2 * sw.2
        | Option.none => acc) init ≤ init + (ws.map Prod.snd).sum := by
  induction ws with
  | nil => intro init; simp
  | cons w ws ih =>
    intro init
    have hw0 : 0 ≤ w.2 := hw w (List.mem_cons_self w ws)
    have hwrest : ∀ w' ∈ ws, 0 ≤ w'.2 :=
      fun w' h => hw w' (List.mem_cons_of_mem _ h)
    simp only [List.foldl_cons, List.map_cons, List.sum_cons]
    cases hfind : ss.find? (fun p => p.1 = w.1) with
    | none =>
      rcases ih hwrest init with ⟨h1, h2⟩
      exact ⟨h1, by linarith⟩
    | some p =>
      have hp : p ∈ ss := List.mem_of_find?_eq_some hfind
      rcases hs p hp with ⟨hp0, hp1⟩
      rcases ih hwrest (init + p.2 * w.2) with ⟨h1, h2⟩
      have hnn : 0 ≤ p.2 * w.2 := mul_nonneg hp0 hw0
      have hle : p.2 * w.2 ≤ w.2 := by nlinarith
      exact ⟨by linarith, by linarith⟩

/-- Round half to even stays within an interval with integer ends. -/
lemma roundHalfEven_bounds (x : ℚ) (h0 : 0 ≤ x) (h1 : x ≤ 1000) :
    0 ≤ roundHalfEven x ∧ roundHalfEven x ≤ 1000 := by
  unfold roundHalfEven
  have hf0 : (0:ℤ) ≤ ⌊x⌋ := Int.floor_nonneg.mpr h0
  have hfle : (⌊x⌋ : ℚ) ≤ x := Int.floor_le x
  have hcap : ⌊x⌋ ≤ 1000 := by
    have : (⌊x⌋ : ℚ) ≤ 1000 := le_trans hfle h1
    exact_mod_cast this
  split_ifs with hc1 hc2 hc3
  · exact ⟨hf0, hcap⟩
  · have h999 : ⌊x⌋ < 1000 := by
      have : (⌊x⌋ : ℚ) < 1000 - 1/2 := by linarith
      have : (⌊x⌋ : ℚ) < 1000 := by linarith
      exact_mod_cast this
    omega
  · exact ⟨hf0, hcap⟩
  · have h999 : ⌊x⌋ < 1000 := by
      have heq : x - (⌊x⌋ : ℚ) = 1/2 := le_antisymm (not_lt.mp hc2) (not_lt.mp hc1)
      have : (⌊x⌋ : ℚ) < 1000 := by linarith
      exact_mod_cast this
    omega

/-- `round(·, 3)` maps `[0,1]` into `[0,1]`. -/
lemma round3_bounds (q : ℚ) (h0 : 0 ≤ q) (h1 : q ≤ 1) :
    0 ≤ round3 q ∧ round3 q ≤ 1 := by
  unfold round3
  rcases roundHalfEven_bounds (q * 1000) (by linarith) (by linarith)
    with ⟨hn0, hn1⟩
  constructor
  · apply div_nonneg _ (by norm_num)
    exact_mod_cast hn0
  · rw [div_le_one (by norm_num)]
    exact_mod_cast hn1

/-- The total and the score map returned by `compare_cv_data` are related
by the weighted-total loop. -/
lemma compare_cv_data_fst (model : Option SimFn) (data_a data_b : Profile) :
    (compare_cv_data model data_a data_b).1 =
      round3 (weighted_total (compare_cv_data model data_a data_b).2) := rfl

/-- C4: the total returned by `compare_cv_data` equals the sum of
`weight[f] * score[f]` over the fields present in both the weight table
and the per-field score map, rounded to 3 decimals; and when the table
weights sum to 1 and every per-field score lies in `[0,1]`, the total
lies in `[0,1]`. -/
theorem C4_total_formula_and_bounds (model : Option SimFn)
    (data_a data_b : Profile)
    (hw : (SECTION_WEIGHTS.map Prod.snd).sum = 1)
    (hs : ∀ p ∈ (compare_cv_data model data_a data_b).2,
      0 ≤ p.2 ∧ p.2 ≤ 1) :
    (compare_cv_data model data_a data_b).1 =
      spec_weighted_total (compare_cv_data model data_a data_b).2 ∧
    0 ≤ (compare_cv_data model data_a data_b).1 ∧
    (compare_cv_data model data_a data_b).1 ≤ 1 := by
  have hwnn : ∀ w ∈ SECTION_WEIGHTS, 0 ≤ w.2 := by
    intro w hwmem
    fin_cases hwmem <;> norm_num
  have heq : weighted_total (compare_cv_data model data_a data_b).2 =
      ((SECTION_WEIGHTS.filter
          (fun sw => ((compare_cv_data model data_a data_b).2.find?
            (fun p => p.1 = sw.1)).isSome)).map
        (fun sw => sw.2 *
          ((((compare_cv_data model data_a data_b).2.find?
            (fun p => p.1 = sw.1)).map Prod.snd).getD 0))).sum := by
    rw [weighted_total, weighted_foldl_eq, zero_add]
  rcases weighted_foldl_bounds SECTION_WEIGHTS
      (compare_cv_data model data_a data_b).2 hwnn hs 0 with ⟨hb0, hb1⟩
  rw [zero_add, hw] at hb1
  have htotal : 0 ≤ weighted_total (compare_cv_data model data_a data_b).2 ∧
      weighted_total (compare_cv_data model data_a data_b).2 ≤ 1 :=
    ⟨hb0, hb1⟩
  rcases round3_bounds _ htotal.1 htotal.2 with ⟨hr0, hr1⟩
  refine ⟨?_, ?_, ?_⟩
  · rw [compare_cv_data_fst, spec_weighted_total, heq]
  · rw [compare_cv_data_fst]; exact hr0
  · rw [compare_cv_data_fst]; exact hr1

/-- Witness for C4 at a concrete input. -/
theorem C4_total_formula_and_bounds_witness :
    (compare_cv_data Option.none [] []).1 =
      spec_weighted_total (compare_cv_data Option.none [] []).2 ∧
    0 ≤ (compare_cv_data Option.none [] []).1 ∧
    (compare_cv_data Option.none [] []).1 ≤ 1 :=
  C4_total_formula_and_bounds Option.none [] []
    (by with_unfolding_all decide) (by with_unfolding_all decide)

/-- The score map built by `compare_cv_data`, written out. -/
lemma compare_cv_data_snd (model : Option SimFn) (data_a data_b : Profile) :
    (compare_cv_data model data_a data_b).2 =
      list_fields.map (fun field =>
        (field, list_field_score model
          (normalize_set (get_field_data data_a [field]) field)
          (normalize_set (get_field_data data_b [field]) field))) ++
      semantic_fields.map (fun field =>
        (field, calculate_semantic_similarity model
          (narrative_text (get_field_data data_a [field]))
          (narrative_text (get_field_data data_b [field])))) := rfl

/-- Replacing the score of a key not probed by `find?` changes nothing. -/
lemma find?_setScore_ne (ss : List (String × ℚ)) (f s : String) (q : ℚ)
    (hne : s ≠ f) :
    (setScore ss f q).find? (fun p => p.1 = s) =
      ss.find? (fun p => p.1 = s) := by
  induction ss with
  | nil => rfl
  | cons p ps ih =>
    simp only [setScore, List.map_cons]
    by_cases hpf : p.1 = f
    · rw [if_pos hpf]
      have h1 : (decide ((p.1, q).1 = s)) = false := by
        simp only [decide_eq_false_iff_not]
        intro h
        exact hne (hpf ▸ h ▸ rfl)
      have h2 : (decide (p.1 = s)) = false := by
        simp only [decide_eq_false_iff_not]
        intro h
        exact hne (h ▸ hpf)
      rw [List.find?_cons_of_neg _ (by simp [h1]), List.find?_cons_of_neg _
        (by simp [h2])]
      exact ih
    · rw [if_neg hpf]
      by_cases hps : p.1 = s
      · rw [List.find?_cons_of_pos _ (by simp [hps]),
          List.find?_cons_of_pos _ (by simp [hps])]
      · rw [List.find?_cons_of_neg _ (by simp [hps]),
          List.find?_cons_of_neg _ (by simp [hps])]
        exact ih

/-- The weighted-total loop ignores a score replacement on any key
absent from the traversed weight list. -/
lemma weighted_foldl_setScore (ws ss : List (String × ℚ)) (f : String)
    (q : ℚ) (hf : ∀ w ∈ ws, w.1 ≠ f) :
    ∀ init : ℚ,
      ws.foldl (fun acc sw =>
        match (setScore ss f q).find? (fun p => p.1 = sw.1) with
        | some p => acc + p.2 * sw.2
        | Option.none => acc) init =
      ws.foldl (fun acc sw =>
        match ss.find? (fun p => p.1 = sw.1) with
        | some p => acc + p.2 * sw.2
        | Option.none => acc) init := by
  induction ws with
  | nil => intro init; rfl
  | cons w ws ih =>
    intro init
    simp only [List.foldl_cons]
    rw [find?_setScore_ne ss f w.1 q (hf w (List.mem_cons_self w ws))]
    exact ih (fun w' h => hf w' (List.mem_cons_of_mem _ h)) _

/-- C10: for every pair of input profiles and any model state, the score
map returned by `compare_cv_data` has exactly the 7 list-field keys
followed by the 4 narrative-field keys (11 fixed keys, independent of
the inputs); `PROJELER` is among them but absent from the weight table,
and replacing its score by anything leaves the returned total
unchanged — it never contributes. -/
theorem C10_fixed_keys_and_projeler (model : Option SimFn)
    (data_a data_b : Profile) :
    ((compare_cv_data model data_a data_b).2.map Prod.fst =
      list_fields ++ semantic_fields) ∧
    ("PROJELER" ∈ (compare_cv_data model data_a data_b).2.map Prod.fst) ∧
    ("PROJELER" ∉ SECTION_WEIGHTS.map Prod.fst) ∧
    (∀ q : ℚ, round3 (weighted_total
        (setScore (compare_cv_data model data_a data_b).2 "PROJELER" q)) =
      (compare_cv_data model data_a data_b).1) := by
  have hkeys : (compare_cv_data model data_a data_b).2.map Prod.fst =
      list_fields ++ semantic_fields := by
    rw [compare_cv_data_snd, List.map_append, List.map_map, List.map_map]
    simp [Function.comp_def]
  refine ⟨hkeys, ?_, ?_, ?_⟩
  · rw [hkeys]; decide
  · decide
  · intro q
    rw [compare_cv_data_fst, weighted_total, weighted_total,
      weighted_foldl_setScore]
    decide

/-- A list-field score is 0 when both canonical sets are empty. -/
lemma list_field_score_empty (model : Option SimFn) :
    list_field_score model [] [] = 0 := by
  simp [list_field_score, setUnion]

/-- A list-field score is 1 when the canonical sets are equal (as sets)
and non-empty: the exact tier matches everything and the union adds
nothing. -/
lemma list_field_score_identical (model : Option SimFn)
    (sA sB : List String) (hmem : ∀ x, x ∈ sA ↔ x ∈ sB) (hne : sA ≠ []) :
    list_field_score model sA sB = 1 := by
  have hBne : sB ≠ [] := by
    rcases List.exists_mem_of_ne_nil sA hne with ⟨a, ha⟩
    exact List.ne_nil_of_mem ((hmem a).mp ha)
  have hAfilter : sA.filter (fun a => sB.contains a) = sA := by
    apply List.filter_eq_self.mpr
    intro a ha
    exact List.elem_iff.mpr ((hmem a).mp ha)
  have hdiffa : sA.filter (fun a => !(sA.contains a)) = [] := by
    apply List.filter_eq_nil_iff.mpr
    intro a ha
    simp only [Bool.not_eq_true', Bool.not_eq_false]
    exact List.elem_iff.mpr ha
  have hBfilter : sB.filter (fun b => !(sA.contains b)) = [] := by
    apply List.filter_eq_nil_iff.mpr
    intro b hb
    simp only [Bool.not_eq_true', Bool.not_eq_false]
    exact List.elem_iff.mpr ((hmem b).mpr hb)
  have hfind : find_fuzzy_commons model sA sB (4/5) = sA := by
    simp only [find_fuzzy_commons]
    rw [if_neg (by simp [List.isEmpty_iff, hne, hBne])]
    rw [hAfilter, hdiffa]
    simp
  unfold list_field_score setUnion
  rw [hfind, hBfilter, List.append_nil]
  have hlen : 0 < sA.length := List.length_pos.mpr hne
  rw [if_pos hlen]
  exact div_self (by exact_mod_cast Nat.pos_iff_ne_zero.mp hlen)

/-- C6: for every list-kind field, the per-field score computed by
`compare_cv_data` is the overlap ratio of the two canonical sets; it is
0 when both sides canonicalize to empty sets and exactly 1 when both
sides canonicalize to identical non-empty sets. -/
theorem C6_empty_and_identical_sets (model : Option SimFn)
    (data_a data_b : Profile) (field : String) (hf : field ∈ list_fields) :
    (((compare_cv_data model data_a data_b).2.find?
        (fun p => p.1 = field)).map Prod.snd) =
      some (list_field_score model
        (normalize_set (get_field_data data_a [field]) field)
        (normalize_set (get_field_data data_b [field]) field)) ∧
    (normalize_set (get_field_data data_a [field]) field = [] →
      normalize_set (get_field_data data_b [field]) field = [] →
      list_field_score model
        (normalize_set (get_field_data data_a [field]) field)
        (normalize_set (get_field_data data_b [field]) field) = 0) ∧
    ((∀ x, x ∈ normalize_set (get_field_data data_a [field]) field ↔
        x ∈ normalize_set (get_field_data data_b [field]) field) →
      normalize_set (get_field_data data_a [field]) field ≠ [] →
      list_field_score model
        (normalize_set (get_field_data data_a [field]) field)
        (normalize_set (get_field_data data_b [field]) field) = 1) := by
  refine ⟨?_, ?_, ?_⟩
  · rw [compare_cv_data_snd]
    fin_cases hf <;> simp [list_fields, semantic_fields, List.find?]
  · intro ha hb
    rw [ha, hb]
    exact list_field_score_empty model
  · intro hmem hne
    exact list_field_score_identical model _ _ hmem hne

set_option maxHeartbeats 2000000 in
/-- Witness for C6 at a concrete input. -/
theorem C6_empty_and_identical_sets_witness :
    list_field_score Option.none
      (normalize_set (get_field_data [("YETENEKLER", RawVal.str "Python")]
        ["YETENEKLER"]) "YETENEKLER")
      (normalize_set (get_field_data [("YETENEKLER", RawVal.str "python")]
        ["YETENEKLER"]) "YETENEKLER") = 1 := by
  have heq : normalize_set (get_field_data
        [("YETENEKLER", RawVal.str "Python")] ["YETENEKLER"]) "YETENEKLER" =
      normalize_set (get_field_data
        [("YETENEKLER", RawVal.str "python")] ["YETENEKLER"]) "YETENEKLER" := by
    with_unfolding_all decide
  exact (C6_empty_and_identical_sets Option.none
      [("YETENEKLER", RawVal.str "Python")]
      [("YETENEKLER", RawVal.str "python")] "YETENEKLER"
      (by decide)).2.2
    (fun x => by rw [heq])
    (by with_unfolding_all decide)

/-- C3 counterexample: profiles with skills `"ab, abc"` versus `"abcd"`
score 2/3 in one direction and 1/3 in the other for `YETENEKLER` — a
deterministic, structural asymmetry of the containment tier, not
tie-break nondeterminism. -/
theorem C3_counterexample :
    (((compare_cv_data Option.none
        [("YETENEKLER", RawVal.str "ab, abc")]
        [("YETENEKLER", RawVal.str "abcd")]).2.find?
          (fun p => p.1 = "YETENEKLER")).map Prod.snd) ≠
    (((compare_cv_data Option.none
        [("YETENEKLER", RawVal.str "abcd")]
        [("YETENEKLER", RawVal.str "ab, abc")]).2.find?
          (fun p => p.1 = "YETENEKLER")).map Prod.snd) := by
  with_unfolding_all decide

/-- With no cross containment and no model, the matcher degenerates to
the exact intersection, kept in A-order. -/
lemma find_none_eq_inter (set_a set_b : List String) (threshold : ℚ)
    (hnc : ∀ a ∈ set_a, ∀ b ∈ set_b, a ∉ set_b → b ∉ set_a →
      ¬((isSub a b || isSub b a) = true)) :
    find_fuzzy_commons Option.none set_a set_b threshold =
      set_a.filter (fun a => set_b.contains a) := by
  simp only [find_fuzzy_commons]
  split
  · rename_i h
    rcases (by simpa using h : set_a = [] ∨ set_b = []) with h' | h' <;> subst h'
    · simp
    · symm
      rw [List.eq_nil_iff_forall_not_mem]
      intro x hx
      have := (List.mem_filter.mp hx).2
      simp at this
  · split
    · rfl
    · have hcont : ((set_a.filter (fun a =>
          !((set_a.filter (fun a => set_b.contains a)).contains a))).filter
          (containment_pred (set_b.filter (fun b =>
            !((set_a.filter (fun a => set_b.contains a)).contains b))))) = [] := by
        apply List.filter_eq_nil_iff.mpr
        intro a ha
        have hax := (mem_diffa_iff set_a set_b a).mp ha
        intro hc
        rcases (containment_pred_iff _ _).mp hc with ⟨b, hb, hsub⟩
        have hbb := (mem_diffb_iff set_a set_b b).mp hb
        exact hnc a hax.1 b hbb.1 hax.2 hbb.2 hsub
      rw [hcont]
      simp [semantic_tier]

/-- Two duplicate-free lists with the same members have equal length. -/
lemma length_eq_of_nodup_mem_iff (l1 l2 : List String)
    (h1 : l1.Nodup) (h2 : l2.Nodup) (hm : ∀ x, x ∈ l1 ↔ x ∈ l2) :
    l1.length = l2.length := by
  rw [← List.toFinset_card_of_nodup h1, ← List.toFinset_card_of_nodup h2]
  congr 1
  ext x
  simp only [List.mem_toFinset]
  exact hm x

/-- C3 (amended): the exact tier and the union denominator are
symmetric, so for duplicate-free canonical sets with no cross
containment the list-field score is symmetric under swapping the two
profiles when the model is absent; in general (see the counterexample)
the containment tier can match different numbers of terms in the two
directions and the scores differ — a structural asymmetry, not
tie-break nondeterminism. -/
theorem C3_symmetry_without_cross_matches (set_a set_b : List String)
    (hA : set_a.Nodup) (hB : set_b.Nodup)
    (hnc : ∀ a ∈ set_a, ∀ b ∈ set_b, a ∉ set_b → b ∉ set_a →
      ¬((isSub a b || isSub b a) = true)) :
    list_field_score Option.none set_a set_b =
      list_field_score Option.none set_b set_a := by
  have hnc' : ∀ b ∈ set_b, ∀ a ∈ set_a, b ∉ set_a → a ∉ set_b →
      ¬((isSub b a || isSub a b) = true) := by
    intro b hb a ha hbna hanb hsub
    rw [Bool.or_comm] at hsub
    exact hnc a ha b hb hanb hbna hsub
  have hfindAB := find_none_eq_inter set_a set_b (4/5) hnc
  have hfindBA := find_none_eq_inter set_b set_a (4/5) hnc'
  simp only [list_field_score]
  rw [hfindAB, hfindBA]
  have hnum : (set_a.filter (fun a => set_b.contains a)).length =
      (set_b.filter (fun b => set_a.contains b)).length := by
    apply length_eq_of_nodup_mem_iff _ _ (hA.filter _) (hB.filter _)
    intro x
    rw [mem_commons_iff, mem_commons_iff]
    tauto
  have hden : (setUnion set_a set_b).length =
      (setUnion set_b set_a).length := by
    apply length_eq_of_nodup_mem_iff
    · rw [setUnion, List.nodup_append]
      refine ⟨hA, hB.filter _, ?_⟩
      intro x hx hx'
      have h2 := (List.mem_filter.mp hx').2
      simp_all
    · rw [setUnion, List.nodup_append]
      refine ⟨hB, hA.filter _, ?_⟩
      intro x hx hx'
      have h2 := (List.mem_filter.mp hx').2
      simp_all
    · intro x
      rw [setUnion, setUnion, List.mem_append, List.mem_append,
        List.mem_filter, List.mem_filter]
      constructor
      · rintro (h | ⟨h, -⟩)
        · by_cases hx : x ∈ set_b
          · exact Or.inl hx
          · exact Or.inr ⟨h, by simpa using hx⟩
        · exact Or.inl h
      · rintro (h | ⟨h, -⟩)
        · by_cases hx : x ∈ set_a
          · exact Or.inl hx
          · exact Or.inr ⟨h, by simpa using hx⟩
        · exact Or.inl h
  rw [hnum, hden]

/-- Witness for C3 (amended) at a concrete input. -/
theorem C3_symmetry_witness :
    list_field_score Option.none ["xy"] ["ab"] =
      list_field_score Option.none ["ab"] ["xy"] :=
  C3_symmetry_without_cross_matches ["xy"] ["ab"] (by decide) (by decide)
    (by decide)

/-- C9 counterexample: profiles whose skill sets differ in both
directions (`{"python"}` vs `{"java"}`), yet the produced report consists
of exactly the header, the verdict and the experience line — no
"unique to A" or "unique to B" line is ever emitted by
`generate_report`. -/
theorem C9_counterexample :
    ((normalize_set (get_field_data [("YETENEKLER", RawVal.str "python")]
        ["YETENEKLER"]) "YETENEKLER").filter (fun t =>
      !((normalize_set (get_field_data [("YETENEKLER", RawVal.str "java")]
        ["YETENEKLER"]) "YETENEKLER").contains t)) ≠ []) ∧
    ((normalize_set (get_field_data [("YETENEKLER", RawVal.str "java")]
        ["YETENEKLER"]) "YETENEKLER").filter (fun t =>
      !((normalize_set (get_field_data [("YETENEKLER", RawVal.str "python")]
        ["YETENEKLER"]) "YETENEKLER").contains t)) ≠ []) ∧
    generate_report Option.none [("YETENEKLER", RawVal.str "python")]
        [("YETENEKLER", RawVal.str "java")] 0 [] =
      ["--- Karşılaştırma Raporu (Genel Skor: 0.0%) ---",
       "-> Özet: Adaylar Düşük Uyumlu.",
       "-> DENEYİM UYUMU: %0.0"] := by
  with_unfolding_all decide

/-- C9 (amended): `generate_report` emits no per-field "unique to"
lines: beyond the header, the verdict and the experience line, every
line it can ever produce is a common-terms line `"-> <title>: …"` for
one of the six check fields; the unique-terms display lives in the
presentation layer, outside this function. -/
theorem C9_no_unique_lines (model : Option SimFn) (data_a data_b : Profile)
    (total_score : ℚ) (section_scores : List (String × ℚ)) :
    ∀ line ∈ (generate_report model data_a data_b total_score
        section_scores).drop 3,
      ∃ ft ∈ check_fields, ∃ rest : String,
        line = "-> " ++ ft.2 ++ ": " ++ rest := by
  intro line hline
  simp only [generate_report, List.cons_append, List.nil_append,
    List.singleton_append, List.drop_succ_cons, List.drop_zero] at hline
  rcases List.mem_filterMap.mp hline with ⟨ft, hft, hsome⟩
  by_cases hempty : (find_fuzzy_commons model
      (normalize_set (get_field_data data_a [ft.1]) ft.1)
      (normalize_set (get_field_data data_b [ft.1]) ft.1) (4/5)).isEmpty
  · rw [if_pos hempty] at hsome
    simp at hsome
  · rw [if_neg hempty] at hsome
    exact ⟨ft, hft, _, (Option.some.inj hsome).symm⟩

/-- Witness for C9 (amended) at a concrete input. -/
theorem C9_no_unique_lines_witness :
    ∃ ft ∈ check_fields, ∃ rest : String,
      "-> ORTAK YETENEKLER: Python" = "-> " ++ ft.2 ++ ": " ++ rest :=
  C9_no_unique_lines Option.none [("YETENEKLER", RawVal.str "python")]
    [("YETENEKLER", RawVal.str "python")] 0 []
    "-> ORTAK YETENEKLER: Python" (by with_unfolding_all decide)

/-- Witness for C2 (amended) at a concrete input. -/
theorem C2_no_consumption_witness :
    "ab" ∈ find_fuzzy_commons Option.none ["ab"] ["ab"] (4/5) ↔
      ("ab" ∈ (["ab"] : List String) ∧ (["ab"] : List String) ≠ [] ∧
        ("ab" ∈ (["ab"] : List String) ∨
          (∃ b ∈ (["ab"] : List String), b ∉ (["ab"] : List String) ∧
            (isSub "ab" b || isSub b "ab") = true) ∨
          (∃ sim, (Option.none : Option SimFn) = some sim ∧
            ∃ b ∈ (["ab"] : List String), b ∉ (["ab"] : List String) ∧
              (4:ℚ)/5 < sim "ab" b))) :=
  C2_no_consumption Option.none (4/5) ["ab"] ["ab"] "ab"

/-- Witness for C7 at a concrete input. -/
theorem C7_missing_model_degrades_witness :
    find_fuzzy_commons Option.none ["a"] ["b"] (4/5) =
      exact_containment_commons ["a"] ["b"] ∧
    calculate_semantic_similarity Option.none "x" "y" = 0 :=
  C7_missing_model_degrades (4/5) ["a"] ["b"] "x" "y"

/-- Witness for C10 at a concrete input. -/
theorem C10_fixed_keys_and_projeler_witness :
    ((compare_cv_data Option.none [] []).2.map Prod.fst =
      list_fields ++ semantic_fields) ∧
    ("PROJELER" ∈ (compare_cv_data Option.none [] []).2.map Prod.fst) ∧
    ("PROJELER" ∉ SECTION_WEIGHTS.map Prod.fst) ∧
    (∀ q : ℚ, round3 (weighted_total
        (setScore (compare_cv_data Option.none [] []).2 "PROJELER" q)) =
      (compare_cv_data Option.none [] []).1) :=
  C10_fixed_keys_and_projeler Option.none [] []

end CvEngine
